import Mathlib

/-!
Shallow embedding of `lo/operators.py` (repository `esoubrie/lo`).

Modelling conventions:
* n-dimensional numeric arrays are modelled by their flat data in C order,
  as `List ℚ` (exact rationals stand in for floating-point numbers); a shape
  is the list of axis lengths.  `reshape` never changes the flat data, it
  only checks that the total size matches, so an n-dimensional function is
  modelled by its action on the flat data together with the shape lists.
* shapes are lists of integers (`ℤ`), because `convolve` can compute a
  negative axis length; `np.prod` of a shape is `List.prod`.
* python exceptions are modelled by `Except String`; the string records the
  kind of exception numpy would raise.
* the local python-2 integer division `i / factor` on non-negative operands
  is floor division, matching `Nat.div`; `numpy` integer-array in-place
  division `shapeout[axis] /= factor` also floors.
-/

namespace Lo

/-- Euclidean inner product of two flat vectors (`np.dot` on 1-d arrays). -/
def dot (x y : List ℚ) : ℚ :=
  (List.zipWith (· * ·) x y).sum

/-- Modelled from the spec: the external `interface.LinearOperator` type
(`from interface import LinearOperator`, a file of this repository that is
not under `src/`).  Per §3/§6 it only stores the `(rows, cols)` shape and
the callable forward/adjoint slots, and per §7 it performs no checking of
its own: apply-time errors surface from the numeric operations themselves.
The dtype bookkeeping is irrelevant to every claim and is omitted. -/
structure LinearOperator where
  shape : ℤ × ℤ
  matvec : List ℚ → Except String (List ℚ)
  rmatvec : Option (List ℚ → Except String (List ℚ))

/-- `A.matvec(x)`: calling the forward slot. -/
def apply (A : LinearOperator) (x : List ℚ) : Except String (List ℚ) :=
  A.matvec x

/-- `A.rmatvec(x)`: calling the adjoint slot; absent adjoint fails. -/
def applyAdjoint (A : LinearOperator) (y : List ℚ) : Except String (List ℚ) :=
  match A.rmatvec with
  | some g => g y
  | none => .error "AttributeError: adjoint not defined"

/-- `x.reshape(size)` on flat data for a scalar `size` (as `ndoperator`
calls it, with `size = np.prod(shape)`): the flat data is unchanged.  numpy
treats a negative entry of the requested shape as an unknown dimension to be
inferred, so a negative scalar `size` always succeeds and just flattens
(this matters for `convolve` in valid mode, whose buggy `s - ks - 1` sizing
can be negative); a nonnegative `size` raises `ValueError` unless the total
size agrees. -/
def reshape (x : List ℚ) (size : ℤ) : Except String (List ℚ) :=
  if size < 0 then .ok x
  else if (x.length : ℤ) = size then .ok x
  else .error "ValueError: cannot reshape array"

/-- `ndoperator(shapein, shapeout, matvec, rmatvec)`: wraps an n-dimensional
function pair into a flat `LinearOperator` with
`shape = (prod(shapeout), prod(shapein))`; the flat forward action reshapes
the input to `shapein`, applies `matvec` and reshapes the result to length
`prod(shapeout)`, and symmetrically for the adjoint. -/
def ndoperator (shapein shapeout : List ℤ)
    (matvec : List ℚ → Except String (List ℚ))
    (rmatvec : Option (List ℚ → Except String (List ℚ))) : LinearOperator where
  shape := (shapeout.prod, shapein.prod)
  matvec := fun x => do
    let xr ← reshape x shapein.prod
    let r ← matvec xr
    reshape r shapeout.prod
  rmatvec := rmatvec.map (fun g => fun y => do
    let yr ← reshape y shapeout.prod
    let r ← g yr
    reshape r shapein.prod)

/-- numpy elementwise product `d * x` with 1-d broadcasting: equal lengths
multiply pointwise, a length-one operand broadcasts, anything else raises. -/
def np_mul (d x : List ℚ) : Except String (List ℚ) :=
  if d.length = x.length then .ok (List.zipWith (· * ·) d x)
  else if d.length = 1 then .ok (x.map (fun v => d.headD 0 * v))
  else if x.length = 1 then .ok (d.map (fun v => v * x.headD 0))
  else .error "ValueError: operands could not be broadcast together"

/-- `diag(d, shape=None)`: diagonal operator; the default shape is
`(d.size, d.size)`; a non-square shape raises at factory time; the forward
and adjoint actions are both `x ↦ d * x`. -/
def diag (d : List ℚ) (shape : Option (ℤ × ℤ)) : Except String LinearOperator :=
  let s := shape.getD ((d.length : ℤ), (d.length : ℤ))
  if s.1 ≠ s.2 then .error "ValueError: Diagonal operators must be square"
  else .ok { shape := s, matvec := np_mul d, rmatvec := some (np_mul d) }

/-- `identity(shape)`: identity operator, raising on a non-square shape. -/
def identity (shape : ℤ × ℤ) : Except String LinearOperator :=
  if shape.1 ≠ shape.2 then .error "ValueError: Identity operators must be square"
  else .ok { shape := shape, matvec := fun x => .ok x, rmatvec := some (fun x => .ok x) }

/-- `eye(shape)`: for a square shape this is `identity(shape)` (which cannot
fail there).  Otherwise the forward action is `x[:shape[0]]` (python slicing,
which never errors and returns at most `shape[0]` leading entries), and the
adjoint slot is `np.concatenate(x, np.zeros(shape[0] - shape[1]))`: numpy
first evaluates `np.zeros` of a negative size, raising `ValueError` when
`shape[0] < shape[1]`, and otherwise `np.concatenate` receives an array as
its `axis` argument and raises `TypeError`.  So the adjoint slot raises on
every call. -/
def eye (shape : ℤ × ℤ) : LinearOperator :=
  if shape.1 = shape.2 then
    { shape := shape, matvec := fun x => .ok x, rmatvec := some (fun x => .ok x) }
  else
    { shape := shape,
      matvec := fun x => .ok (x.take shape.1.toNat),
      rmatvec := some (fun _y =>
        if shape.1 - shape.2 < 0 then
          .error "ValueError: negative dimensions are not allowed"
        else
          .error "TypeError: only integer scalar arrays can be converted to a scalar index") }

/-- `y = copy(x); y[mask == True] = 0; return y` acting on flat data:
entries at positions where the mask is true become `0`, the others keep the
value of `x`. -/
def mask_matvec (m : List Bool) (x : List ℚ) : List ℚ :=
  List.zipWith (fun b v => if b then 0 else v) m x

/-- `mask(mask)`: self-adjoint masking operator built by `ndoperator` with
`shapein = shapeout = mask.shape` (flattened here, so `prod = m.length`). -/
def mask (m : List Bool) : LinearOperator :=
  ndoperator [(m.length : ℤ)] [(m.length : ℤ)]
    (fun x => .ok (mask_matvec m x)) (some (fun x => .ok (mask_matvec m x)))

/-- `np.sum(mask == False)`: the number of false entries of the mask. -/
def countFalse (m : List Bool) : ℕ :=
  (m.filter (fun b => !b)).length

/-- `x[mask == False]` on flat data: keep the entries at positions where the
mask is false, in order. -/
def select : List Bool → List ℚ → List ℚ
  | [], _ => []
  | _, [] => []
  | b :: m, v :: x => if b then select m x else v :: select m x

/-- `y = np.zeros(shapein); y[mask == False] = x; return y` on flat data:
scatter the entries of `x` into the false positions, zeros elsewhere.
(The wrapper has already checked `x.length = countFalse m`.) -/
def scatter : List Bool → List ℚ → List ℚ
  | [], _ => []
  | true :: m, y => 0 :: scatter m y
  | false :: m, y => y.headD 0 :: scatter m y.tail

/-- `decimate(mask)`: selection operator with
`shapein = mask.shape`, `shapeout = np.sum(mask == False)`. -/
def decimate (m : List Bool) : LinearOperator :=
  ndoperator [(m.length : ℤ)] [(countFalse m : ℤ)]
    (fun x => .ok (select m x)) (some (fun y => .ok (scatter m y)))

/-- One iteration of the loop in `bin`: `outarr[i / factor] += arr[i]`.
Python-2 integer division by zero raises `ZeroDivisionError`; an
out-of-range store raises `IndexError`. -/
def binStep (arr : List ℚ) (factor : ℕ) (out : List ℚ) (i : ℕ) : Except String (List ℚ) :=
  if factor = 0 then .error "ZeroDivisionError: integer division or modulo by zero"
  else if h : i / factor < out.length then
    .ok (out.set (i / factor) (out.get ⟨i / factor, h⟩ + arr.getD i 0))
  else .error "IndexError: index out of bounds"

/-- `bin(arr, factor)` (1-d, the default `axis=-1`):
`outarr = np.zeros(n / factor)` then `for i in range(n): outarr[i / factor]
+= arr[i]`. -/
def bin (arr : List ℚ) (factor : ℕ) : Except String (List ℚ) :=
  (List.range arr.length).foldlM (binStep arr factor)
    (List.replicate (arr.length / factor) 0)

/-- `replicate(arr, factor)` (1-d, the default `axis=-1`):
`outarr = np.zeros(n * factor)` then `for i in range(n * factor):
outarr[i] = arr[i / factor]`. -/
def replicate (arr : List ℚ) (factor : ℕ) : List ℚ :=
  (List.range (arr.length * factor)).map (fun i => arr.getD (i / factor) 0)

/-- `binning(shapein, factor)` (1-d shapein, the default `axis=-1`): the
factory floors `shapeout[axis] /= factor` and performs no validation of its
own; forward is `bin`, adjoint is `replicate`. -/
def binning (n : ℕ) (factor : ℕ) : LinearOperator :=
  ndoperator [(n : ℤ)] [((n / factor : ℕ) : ℤ)]
    (fun x => bin x factor) (some (fun y => .ok (replicate y factor)))

/-- Full discrete convolution of two 1-d arrays
(`scipy.signal.convolve(x, k, mode="full")`):
entry `n` is `Σ_i x[i] k[n-i]`, length `len(x) + len(k) - 1`. -/
def conv_full (x k : List ℚ) : List ℚ :=
  (List.range (x.length + k.length - 1)).map (fun n =>
    ((List.range x.length).map (fun i =>
      if i ≤ n then x.getD i 0 * k.getD (n - i) 0 else 0)).sum)

/-- `scipy.signal.convolve(x, k, mode="valid")`: the central part of the
full convolution, of length `len(x) - len(k) + 1` (for `len(x) ≥ len(k)`). -/
def conv_valid (x k : List ℚ) : List ℚ :=
  ((conv_full x k).drop (k.length - 1)).take (x.length - k.length + 1)

/-- `scipy.signal.convolve(x, k, mode="same")`: the central part of the full
convolution of the same length as `x`. -/
def conv_same (x k : List ℚ) : List ℚ :=
  ((conv_full x k).drop ((k.length - 1) / 2)).take x.length

/-- Dispatch of `scipy.signal.convolve(x, k, mode)` on the three modes. -/
def convArr (mode : String) (x k : List ℚ) : List ℚ :=
  if mode = "full" then conv_full x k
  else if mode = "valid" then conv_valid x k
  else conv_same x k

/-- The `shapeout` computed by the `convolve` factory:
`full` gives `s + ks - 1`, `valid` gives `s - ks - 1` (as written in the
source), `same` gives `s`; any other mode leaves `shapeout` unassigned and
the factory raises `UnboundLocalError`. -/
def convolve_shapeout (mode : String) (shapein kshape : List ℤ) : Option (List ℤ) :=
  if mode = "full" then some (List.zipWith (fun s ks => s + ks - 1) shapein kshape)
  else if mode = "valid" then some (List.zipWith (fun s ks => s - ks - 1) shapein kshape)
  else if mode = "same" then some shapein
  else none

/-- The adjoint-mode selection of `convolve`: full↔valid, same↔same. -/
def convolve_rmode (mode : String) : String :=
  if mode = "full" then "valid"
  else if mode = "valid" then "full"
  else "same"

/-- `convolve(shapein, kernel, mode)` for a 1-d `shapein = (sIn,)`: builds
`ndoperator(shapein, shapeout, matvec, rmatvec)` where `shapeout` follows
`convolve_shapeout`, the forward action convolves with the kernel in the
given mode and the adjoint convolves in the size-inverse mode. -/
def convolve (sIn : ℤ) (k : List ℚ) (mode : String) : Except String LinearOperator :=
  match convolve_shapeout mode [sIn] [(k.length : ℤ)] with
  | none => .error "UnboundLocalError: local variable shapeout referenced before assignment"
  | some so =>
      .ok (ndoperator [sIn] so
        (fun x => .ok (convArr mode x k))
        (some (fun y => .ok (convArr (convolve_rmode mode) y k))))

/-- A heap of array buffers; an array reference is an index into the heap.
This models the aliasing-relevant part of the python runtime for the
frame-effect claim about `mask`: `y = copy(x)` allocates a fresh buffer and
`y[mask == True] = 0` writes that buffer in place. -/
structure Heap where
  bufs : List (List ℚ)

/-- `copy(x)` from the `copy` module on an ndarray: allocate a fresh buffer
holding the same contents and return its reference. -/
def Heap.copyAlloc (h : Heap) (r : ℕ) : Heap × ℕ :=
  (⟨h.bufs ++ [h.bufs.getD r []]⟩, h.bufs.length)

/-- `y[mask == True] = 0`: in-place masked zeroing of the buffer at `r`. -/
def Heap.zeroMasked (h : Heap) (r : ℕ) (m : List Bool) : Heap :=
  ⟨h.bufs.set r (mask_matvec m (h.bufs.getD r []))⟩

/-- The body of `mask`.`matvec` with the heap effects explicit:
`y = copy(x); y[mask == True] = 0; return y`. -/
def mask_matvec_effectful (m : List Bool) (h : Heap) (xr : ℕ) : Heap × ℕ :=
  let p := h.copyAlloc xr
  (p.1.zeroMasked p.2 m, p.2)

/-- `np.fft.fftn` on an array of shape `N : Fin d → ℕ` (array modelled as a
function on multi-indices): entry `k` is
`Σ_n x[n] · Π_i exp(-2πi · k_i · n_i / N_i)`. -/
noncomputable def np_fftn {d : ℕ} (N : Fin d → ℕ) (x : (∀ i, Fin (N i)) → ℂ) :
    (∀ i, Fin (N i)) → ℂ :=
  fun k => ∑ n, x n * ∏ i,
    Complex.exp (-(2 * Real.pi * Complex.I) * ((k i : ℕ) : ℂ) * ((n i : ℕ) : ℂ) / (N i : ℂ))

/-- `np.fft.ifftn` on an array of shape `N`: entry `n` is
`(Σ_k X[k] · Π_i exp(2πi · k_i · n_i / N_i)) / Π_i N_i`. -/
noncomputable def np_ifftn {d : ℕ} (N : Fin d → ℕ) (X : (∀ i, Fin (N i)) → ℂ) :
    (∀ i, Fin (N i)) → ℂ :=
  fun n => (∑ k, X k * ∏ i,
    Complex.exp ((2 * Real.pi * Complex.I) * ((k i : ℕ) : ℂ) * ((n i : ℕ) : ℂ) / (N i : ℂ)))
    / ∏ i, (N i : ℂ)

/-! ### Helper lemmas -/

lemma reshape_eq_ok (x : List ℚ) (size : ℤ) (h : (x.length : ℤ) = size) :
    reshape x size = .ok x := by
  simp [reshape, h]

lemma reshape_ok_length (x y : List ℚ) (size : ℤ) (hs : 0 ≤ size)
    (h : reshape x size = .ok y) : (y.length : ℤ) = size := by
  unfold reshape at h
  split at h
  · next hneg => exact absurd hneg (not_lt.mpr hs)
  · split at h
    · next hc =>
      injection h with hy
      rw [← hy]
      exact hc
    · exact absurd h (by simp)

lemma countFalse_nil : countFalse [] = 0 := rfl

lemma countFalse_cons_true (m : List Bool) : countFalse (true :: m) = countFalse m := rfl

lemma countFalse_cons_false (m : List Bool) :
    countFalse (false :: m) = countFalse m + 1 := by
  simp [countFalse, List.filter]

lemma dot_nil_left (y : List ℚ) : dot [] y = 0 := rfl

lemma dot_nil_right (x : List ℚ) : dot x [] = 0 := by
  simp [dot]

lemma dot_cons (a b : ℚ) (x y : List ℚ) : dot (a :: x) (b :: y) = a * b + dot x y := by
  simp [dot]

lemma length_select (m : List Bool) :
    ∀ x : List ℚ, x.length = m.length → (select m x).length = countFalse m := by
  induction m with
  | nil => intro x _; cases x <;> simp [select, countFalse_nil]
  | cons b m ih =>
    intro x hx
    cases x with
    | nil => simp at hx
    | cons a x =>
      simp only [List.length_cons, Nat.add_right_cancel_iff] at hx
      cases b with
      | true => simpa [select, countFalse_cons_true] using ih x hx
      | false => simpa [select, countFalse_cons_false] using ih x hx

lemma length_scatter (m : List Bool) : ∀ y : List ℚ, (scatter m y).length = m.length := by
  induction m with
  | nil => intro y; simp [scatter]
  | cons b m ih =>
    intro y
    cases b <;> simp [scatter, ih]

lemma dot_select_scatter (m : List Bool) :
    ∀ x y : List ℚ, x.length = m.length → y.length = countFalse m →
      dot (select m x) y = dot x (scatter m y) := by
  induction m with
  | nil =>
    intro x y hx _
    cases x with
    | nil => simp [select, scatter, dot_nil_left, dot_nil_right]
    | cons a x => simp at hx
  | cons b m ih =>
    intro x y hx hy
    cases x with
    | nil => simp at hx
    | cons a x =>
      simp only [List.length_cons, Nat.add_right_cancel_iff] at hx
      cases b with
      | true =>
        rw [countFalse_cons_true] at hy
        show dot (select m x) y = dot (a :: x) (0 :: scatter m y)
        rw [dot_cons, ih x y hx hy]
        ring
      | false =>
        rw [countFalse_cons_false] at hy
        cases y with
        | nil => simp at hy
        | cons c y =>
          simp only [List.length_cons, Nat.add_right_cancel_iff] at hy
          show dot (a :: select m x) (c :: y) = dot (a :: x) (c :: scatter m y)
          rw [dot_cons, dot_cons, ih x y hx hy]

lemma select_scatter (m : List Bool) :
    ∀ y : List ℚ, y.length = countFalse m → select m (scatter m y) = y := by
  induction m with
  | nil =>
    intro y hy
    rw [countFalse_nil] at hy
    cases y with
    | nil => rfl
    | cons c y => simp at hy
  | cons b m ih =>
    intro y hy
    cases b with
    | true =>
      rw [countFalse_cons_true] at hy
      show select m (scatter m y) = y
      exact ih y hy
    | false =>
      rw [countFalse_cons_false] at hy
      cases y with
      | nil => simp at hy
      | cons c y =>
        simp only [List.length_cons, Nat.add_right_cancel_iff] at hy
        show c :: select m (scatter m y) = c :: y
        rw [ih y hy]

lemma decimate_apply (m : List Bool) (x : List ℚ) (hx : x.length = m.length) :
    apply (decimate m) x = .ok (select m x) := by
  simp only [apply, decimate, ndoperator, bind, Except.bind]
  rw [reshape_eq_ok x _ (by simp [hx])]
  dsimp only
  rw [reshape_eq_ok _ _ (by simp [length_select m x hx])]

lemma decimate_applyAdjoint (m : List Bool) (y : List ℚ) (hy : y.length = countFalse m) :
    applyAdjoint (decimate m) y = .ok (scatter m y) := by
  simp only [applyAdjoint, decimate, ndoperator, Option.map, bind, Except.bind]
  rw [reshape_eq_ok y _ (by simp [hy])]
  dsimp only
  rw [reshape_eq_ok _ _ (by simp [length_scatter m y])]

lemma mask_matvec_length (m : List Bool) (x : List ℚ) (hx : x.length = m.length) :
    (mask_matvec m x).length = m.length := by
  simp [mask_matvec, hx]

lemma mask_matvec_getD (m : List Bool) :
    ∀ (x : List ℚ) (i : ℕ), x.length = m.length → i < m.length →
      (mask_matvec m x).getD i 0 = if m.getD i false then 0 else x.getD i 0 := by
  induction m with
  | nil => intro x i _ hi; simp at hi
  | cons b m ih =>
    intro x i hx hi
    cases x with
    | nil => simp at hx
    | cons a x =>
      simp only [List.length_cons, Nat.add_right_cancel_iff] at hx
      cases i with
      | zero => cases b <;> simp [mask_matvec, List.getD]
      | succ j =>
        have hj : j < m.length := by simpa using hi
        simpa [mask_matvec, List.getD] using ih x j hx hj

lemma set_append_singleton {α : Type} (l : List α) (a v : α) :
    (l ++ [a]).set l.length v = l ++ [v] := by
  induction l with
  | nil => rfl
  | cons c l ih => simp [List.set, ih]

lemma getD_append_length {α : Type} (l : List α) (a d : α) :
    (l ++ [a]).getD l.length d = a := by
  rw [List.getD_append_right _ _ _ _ (le_refl _), Nat.sub_self]
  rfl

lemma binStep_ok_segment (arr : List ℚ) (f : ℕ) (hf : f ≠ 0) :
    ∀ (l : List ℕ) (out : List ℚ), (∀ i ∈ l, i / f < out.length) →
      ∃ out2, l.foldlM (binStep arr f) out = .ok out2 ∧ out2.length = out.length := by
  intro l
  induction l with
  | nil => intro out _; exact ⟨out, rfl, rfl⟩
  | cons i l ih =>
    intro out hl
    have hi : i / f < out.length := hl i (List.mem_cons_self i l)
    have hstep : binStep arr f out i =
        .ok (out.set (i / f) (out.get ⟨i / f, hi⟩ + arr.getD i 0)) := by
      unfold binStep
      rw [if_neg hf, dif_pos hi]
    obtain ⟨out2, hout2, hlen⟩ := ih (out.set (i / f) (out.get ⟨i / f, hi⟩ + arr.getD i 0))
      (fun j hj => by
        rw [List.length_set]
        exact hl j (List.mem_cons_of_mem i hj))
    refine ⟨out2, ?_, by rw [hlen, List.length_set]⟩
    rw [List.foldlM_cons, hstep]
    simpa using hout2

lemma bin_indexerror (arr : List ℚ) (f : ℕ) (hf : 0 < f) (hdvd : ¬ f ∣ arr.length) :
    bin arr f = .error "IndexError: index out of bounds" := by
  have hf0 : f ≠ 0 := hf.ne'
  set n := arr.length with hn
  set N := n / f with hN
  have hi0 : f * N < n := by
    have h1 : f * N ≤ n := by rw [hN, mul_comm]; exact Nat.div_mul_le_self n f
    rcases Nat.lt_or_ge (f * N) n with h | h
    · exact h
    · exact absurd ⟨N, (le_antisymm h1 h).symm⟩ hdvd
  have hsplit : List.range n = List.range (f * N) ++
      (List.range (n - f * N)).map (f * N + ·) := by
    rw [← List.range_add, Nat.add_sub_cancel' (le_of_lt hi0)]
  obtain ⟨k, hk⟩ : ∃ k, n - f * N = k + 1 := ⟨n - f * N - 1, by omega⟩
  unfold bin
  rw [← hn, ← hN, hsplit, List.foldlM_append]
  obtain ⟨out2, hout2, hlen⟩ := binStep_ok_segment arr f hf0 (List.range (f * N))
    (List.replicate N 0)
    (fun i hi => by
      rw [List.length_replicate]
      exact (Nat.div_lt_iff_lt_mul hf).mpr (by rw [mul_comm]; exact List.mem_range.mp hi))
  rw [hout2]
  have hbad : binStep arr f out2 (f * N) = .error "IndexError: index out of bounds" := by
    unfold binStep
    rw [if_neg hf0, dif_neg]
    rw [hlen, List.length_replicate, Nat.mul_div_cancel_left N hf]
    exact lt_irrefl N
  rw [hk, List.range_succ_eq_map]
  simp only [List.map_cons, List.foldlM_cons, Nat.add_zero, bind, Except.bind, hbad]

lemma sum_exp_unit_root (M : ℕ) (hM : 0 < M) (c : ℤ) :
    ∑ k : Fin M, Complex.exp ((2 * Real.pi * Complex.I) * ((k : ℕ) : ℂ) * (c : ℂ) / (M : ℂ)) =
      if (M : ℤ) ∣ c then (M : ℂ) else 0 := by
  have hM0 : (M : ℂ) ≠ 0 := Nat.cast_ne_zero.mpr hM.ne'
  have h2pi : (2 * (Real.pi : ℂ) * Complex.I) ≠ 0 :=
    mul_ne_zero (mul_ne_zero two_ne_zero (Complex.ofReal_ne_zero.mpr Real.pi_ne_zero))
      Complex.I_ne_zero
  set ζ : ℂ := Complex.exp ((2 * Real.pi * Complex.I) * (c : ℂ) / (M : ℂ)) with hζ
  have hpow : ∀ j : ℕ,
      Complex.exp ((2 * Real.pi * Complex.I) * (j : ℂ) * (c : ℂ) / (M : ℂ)) = ζ ^ j := by
    intro j
    rw [hζ, ← Complex.exp_nat_mul]
    congr 1
    ring
  have hgeom : ∑ k : Fin M, Complex.exp
      ((2 * Real.pi * Complex.I) * ((k : ℕ) : ℂ) * (c : ℂ) / (M : ℂ)) =
      ∑ j ∈ Finset.range M, ζ ^ j := by
    rw [← Fin.sum_univ_eq_sum_range (fun j => ζ ^ j) M]
    exact Finset.sum_congr rfl (fun k _ => hpow k)
  rw [hgeom]
  by_cases hd : (M : ℤ) ∣ c
  · obtain ⟨t, ht⟩ := hd
    have hζ1 : ζ = 1 := by
      rw [hζ, ht]
      push_cast
      rw [show (2 * (Real.pi : ℂ) * Complex.I) * ((M : ℂ) * (t : ℂ)) / (M : ℂ) =
        (t : ℂ) * (2 * Real.pi * Complex.I) by field_simp; ring]
      exact Complex.exp_int_mul_two_pi_mul_I t
    rw [if_pos ⟨t, ht⟩]
    simp [hζ1]
  · have hζ1 : ζ ≠ 1 := by
      intro h1
      rw [hζ, Complex.exp_eq_one_iff] at h1
      obtain ⟨t, ht⟩ := h1
      apply hd
      have hc : (c : ℂ) = (t : ℂ) * (M : ℂ) := by
        field_simp at ht
        apply mul_left_cancel₀ h2pi
        linear_combination ht
      exact ⟨t, by rw [mul_comm]; exact_mod_cast hc⟩
    have hζM : ζ ^ M = 1 := by
      rw [hζ, ← Complex.exp_nat_mul]
      rw [show (M : ℂ) * ((2 * Real.pi * Complex.I) * (c : ℂ) / (M : ℂ)) =
        (c : ℂ) * (2 * Real.pi * Complex.I) by field_simp; ring]
      exact Complex.exp_int_mul_two_pi_mul_I c
    rw [geom_sum_eq hζ1, hζM, if_neg hd]
    simp

lemma prod_ite_dvd_eq {d : ℕ} (N : Fin d → ℕ)
    (mm nn : ∀ i, Fin (N i)) :
    (∏ i, if (N i : ℤ) ∣ (((nn i : ℕ) : ℤ) - ((mm i : ℕ) : ℤ)) then (N i : ℂ) else 0) =
      if mm = nn then ∏ i, (N i : ℂ) else 0 := by
  by_cases h : mm = nn
  · subst h
    simp
  · rw [if_neg h]
    obtain ⟨i, hi⟩ := Function.ne_iff.mp h
    refine Finset.prod_eq_zero (Finset.mem_univ i) ?_
    rw [if_neg]
    intro hdvd
    have h1 : ((nn i : ℕ) : ℤ) < N i := by exact_mod_cast (nn i).isLt
    have h2 : ((mm i : ℕ) : ℤ) < N i := by exact_mod_cast (mm i).isLt
    have h3 : (0 : ℤ) ≤ ((nn i : ℕ) : ℤ) := Int.natCast_nonneg _
    have h4 : (0 : ℤ) ≤ ((mm i : ℕ) : ℤ) := Int.natCast_nonneg _
    have h0 : ((nn i : ℕ) : ℤ) - ((mm i : ℕ) : ℤ) = 0 :=
      Int.eq_zero_of_abs_lt_dvd hdvd (abs_sub_lt_iff.mpr ⟨by omega, by omega⟩)
    have hv : (mm i : ℕ) = (nn i : ℕ) := by omega
    exact hi (Fin.ext hv)

set_option maxHeartbeats 1000000 in
lemma np_ifftn_np_fftn {d : ℕ} (N : Fin d → ℕ) (xc : (∀ i, Fin (N i)) → ℂ) :
    np_ifftn N (np_fftn N xc) = xc := by
  funext n0
  have hN : ∀ i, 0 < N i := fun i => (n0 i).pos
  have hprodN : (∏ i, (N i : ℂ)) ≠ 0 :=
    Finset.prod_ne_zero_iff.mpr (fun i _ => Nat.cast_ne_zero.mpr (hN i).ne')
  simp only [np_ifftn, np_fftn]
  have key : (∑ k : ∀ i, Fin (N i), (∑ m : ∀ i, Fin (N i), xc m * ∏ i,
        Complex.exp (-(2 * Real.pi * Complex.I) * ((k i : ℕ) : ℂ) * ((m i : ℕ) : ℂ) / (N i : ℂ)))
        * ∏ i, Complex.exp ((2 * Real.pi * Complex.I) * ((k i : ℕ) : ℂ) * ((n0 i : ℕ) : ℂ) / (N i : ℂ)))
      = xc n0 * ∏ i, (N i : ℂ) := by
    calc
      (∑ k : ∀ i, Fin (N i), (∑ m : ∀ i, Fin (N i), xc m * ∏ i,
          Complex.exp (-(2 * Real.pi * Complex.I) * ((k i : ℕ) : ℂ) * ((m i : ℕ) : ℂ) / (N i : ℂ)))
          * ∏ i, Complex.exp ((2 * Real.pi * Complex.I) * ((k i : ℕ) : ℂ) * ((n0 i : ℕ) : ℂ) / (N i : ℂ)))
        = ∑ k : ∀ i, Fin (N i), ∑ m : ∀ i, Fin (N i), (xc m * ∏ i,
            Complex.exp (-(2 * Real.pi * Complex.I) * ((k i : ℕ) : ℂ) * ((m i : ℕ) : ℂ) / (N i : ℂ)))
            * ∏ i, Complex.exp ((2 * Real.pi * Complex.I) * ((k i : ℕ) : ℂ) * ((n0 i : ℕ) : ℂ) / (N i : ℂ)) :=
          Finset.sum_congr rfl (fun k _ => Finset.sum_mul _ _ _)
      _ = ∑ m : ∀ i, Fin (N i), ∑ k : ∀ i, Fin (N i), (xc m * ∏ i,
            Complex.exp (-(2 * Real.pi * Complex.I) * ((k i : ℕ) : ℂ) * ((m i : ℕ) : ℂ) / (N i : ℂ)))
            * ∏ i, Complex.exp ((2 * Real.pi * Complex.I) * ((k i : ℕ) : ℂ) * ((n0 i : ℕ) : ℂ) / (N i : ℂ)) :=
          Finset.sum_comm
      _ = ∑ m : ∀ i, Fin (N i), xc m * ∑ k : ∀ i, Fin (N i), ∏ i,
            Complex.exp ((2 * Real.pi * Complex.I) * ((k i : ℕ) : ℂ)
              * (((((n0 i : ℕ) : ℤ) - ((m i : ℕ) : ℤ)) : ℤ) : ℂ) / (N i : ℂ)) := by
          refine Finset.sum_congr rfl (fun m _ => ?_)
          refine Eq.trans (Finset.sum_congr rfl (fun k _ => ?_)) (Finset.mul_sum _ _ _).symm
          rw [mul_assoc]
          congr 1
          rw [← Finset.prod_mul_distrib]
          refine Finset.prod_congr rfl (fun i _ => ?_)
          rw [← Complex.exp_add]
          congr 1
          push_cast
          ring
      _ = ∑ m : ∀ i, Fin (N i), xc m *
            (if m = n0 then ∏ i, (N i : ℂ) else 0) := by
          refine Finset.sum_congr rfl (fun m _ => ?_)
          congr 1
          calc
            (∑ k : ∀ i, Fin (N i), ∏ i,
                Complex.exp ((2 * Real.pi * Complex.I) * ((k i : ℕ) : ℂ)
                  * (((((n0 i : ℕ) : ℤ) - ((m i : ℕ) : ℤ)) : ℤ) : ℂ) / (N i : ℂ)))
              = ∏ i, ∑ j : Fin (N i),
                  Complex.exp ((2 * Real.pi * Complex.I) * ((j : ℕ) : ℂ)
                    * (((((n0 i : ℕ) : ℤ) - ((m i : ℕ) : ℤ)) : ℤ) : ℂ) / (N i : ℂ)) :=
                (Fintype.prod_sum (fun i (j : Fin (N i)) =>
                  Complex.exp ((2 * Real.pi * Complex.I) * ((j : ℕ) : ℂ)
                    * (((((n0 i : ℕ) : ℤ) - ((m i : ℕ) : ℤ)) : ℤ) : ℂ) / (N i : ℂ)))).symm
            _ = ∏ i, (if (N i : ℤ) ∣ (((n0 i : ℕ) : ℤ) - ((m i : ℕ) : ℤ)) then (N i : ℂ) else 0) :=
                Finset.prod_congr rfl (fun i _ =>
                  sum_exp_unit_root (N i) (hN i) (((n0 i : ℕ) : ℤ) - ((m i : ℕ) : ℤ)))
            _ = if m = n0 then ∏ i, (N i : ℂ) else 0 := prod_ite_dvd_eq N m n0
      _ = xc n0 * ∏ i, (N i : ℂ) := by
          simp only [mul_ite, mul_zero]
          rw [Finset.sum_ite_eq' Finset.univ n0 (fun m => xc m * ∏ i, (N i : ℂ))]
          simp
  rw [key, mul_div_cancel_right₀ _ hprodN]

/-- Claim C8: for every real array `x` of the given shape,
`fftn(shape).apply_adjoint(fftn(shape).apply(x)) = x`: the adjoint (inverse
DFT) undoes the forward DFT.  Exact complex arithmetic models the
floating-point computation, so the floating-point tolerance of the claim
becomes exact equality; numpy upcasts the real input to complex, so the
statement is about the complex image of `x`.  (The `ndoperator` wrapper only
adds mutually inverse flatten/reshape steps, which cancel in the round
trip.) -/
theorem fftn_adjoint_roundtrip {d : ℕ} (N : Fin d → ℕ) (x : (∀ i, Fin (N i)) → ℝ) :
    np_ifftn N (np_fftn N (fun n => ((x n : ℝ) : ℂ))) = fun n => ((x n : ℝ) : ℂ) :=
  np_ifftn_np_fftn N (fun n => ((x n : ℝ) : ℂ))

/-! ### Claim theorems -/

/-- Claim C1: for `convolve(shapein, kernel, mode="valid")` the spec asserts the
standard output size `shapein[i] - kernel.shape[i] + 1` per axis, but the code
computes `s - ks - 1`: at `shapein = (4,)`, kernel shape `(2,)` the operator
declares `shape[0] = 1` instead of `3`, and since the convolution routine
itself returns `3` entries, `apply` always fails with a reshape error.  This
confirms the code bug: the claimed standard arithmetic differs from the code
and the code is internally inconsistent at this input. -/
theorem convolve_valid_shapeout_bug :
    convolve_shapeout "valid" [4] [2] = some [1] ∧
    (4 : ℤ) - 2 + 1 = 3 ∧
    ((convolve 4 [1, 1] "valid").map (fun A => A.shape.1) = .ok 1) ∧
    ((convolve 4 [1, 1] "valid").map (fun A => apply A [1, 2, 3, 4]) =
      .ok (.error "ValueError: cannot reshape array")) ∧
    conv_valid [1, 2, 3, 4] [1, 1] = [3, 5, 7] := by
  refine ⟨rfl, by decide, rfl, rfl, ?_⟩
  norm_num [conv_valid, conv_full, List.range_succ]

/-- Claim C2: the spec asserts `eye(shape).apply_adjoint(y)` zero-pads `y` back
to length `cols` for a non-square shape, but the code line
`np.concatenate(x, np.zeros(shape[0] - shape[1]))` raises on every call:
`ValueError` from `np.zeros` of a negative size when `rows < cols` (the
truncation case the claim describes), `TypeError` from passing an array as the
`axis` argument otherwise.  Evaluated here at the failing inputs. -/
theorem eye_rect_adjoint_raises :
    applyAdjoint (eye (2, 3)) [1, 2] =
      .error "ValueError: negative dimensions are not allowed" ∧
    applyAdjoint (eye (4, 3)) [1, 2, 3, 4] =
      .error "TypeError: only integer scalar arrays can be converted to a scalar index" := by
  exact ⟨rfl, rfl⟩

/-- Claim C6: `binning(shapein=(8,), factor=2)` maps `[1,2,3,4,5,6,7,8]` to
`[3,7,11,15]` and its adjoint maps `[3,7,11,15]` to `[3,3,7,7,11,11,15,15]`. -/
theorem binning_scenario :
    apply (binning 8 2) [1, 2, 3, 4, 5, 6, 7, 8] = .ok [3, 7, 11, 15] ∧
    applyAdjoint (binning 8 2) [3, 7, 11, 15] = .ok [3, 3, 7, 7, 11, 11, 15, 15] := by
  constructor
  · norm_num [apply, binning, ndoperator, reshape, bin, binStep, List.range_succ, List.getD,
      List.foldlM_cons, List.foldlM_nil, bind, Except.bind, pure, Except.pure,
      List.replicate, List.set]
  · norm_num [applyAdjoint, binning, ndoperator, reshape, replicate, Option.map,
      List.range_succ, List.getD, bind, Except.bind]

/-- Claim C3, counterexample: the length invariant fails for the factory `eye`
with shape `(3, 2)`: on the input `[5, 7]` of the declared domain length `2`,
`apply` returns `[5, 7]` unchanged, whose length `2` differs from
`shape[0] = 3` — no error is raised and no length-3 output is produced. -/
theorem eye_rect_length_counterexample :
    apply (eye (3, 2)) [5, 7] = .ok [5, 7] ∧
    (([5, 7] : List ℚ).length : ℤ) ≠ (eye (3, 2)).shape.1 := by
  refine ⟨rfl, by decide⟩

/-- Claim C4, counterexample: both invalid combinations named by the claim get
past the factory: `diag(d, shape=(2,2))` with `d.size = 3` constructs
successfully (only squareness is checked) and fails only at `apply` time with
a broadcast error, and `binning((9,), 2)` constructs successfully with the
floored shape `(4, 9)` and fails only at `apply` time with an `IndexError`
raised inside the repository function `bin`. -/
theorem factory_validation_counterexample :
    (diag [1, 2, 3] (some (2, 2))).isOk = true ∧
    ((diag [1, 2, 3] (some (2, 2))).map (fun A => apply A [1, 2]) =
      .ok (.error "ValueError: operands could not be broadcast together")) ∧
    (binning 9 2).shape = (4, 9) ∧
    apply (binning 9 2) [1, 2, 3, 4, 5, 6, 7, 8, 9] =
      .error "IndexError: index out of bounds" := by
  refine ⟨rfl, rfl, by decide, rfl⟩

/-- Claim C3, amended: for every operator produced through the `ndoperator`
adapter (which all transform factories except `eigen_operator`, `diag`,
`identity` and `eye` use), as long as the declared output size
`prod(shapeout)` is nonnegative — true of every factory except `convolve`
in valid mode with a too-large kernel, whose buggy sizing can go negative —
whenever `apply` returns a value that value has length `shape[0]`, and
symmetrically for `apply_adjoint` with `prod(shapein)` and `shape[1]`;
`identity` and `diag` with its default shape also satisfy the invariant on
inputs of the declared domain length.  Rectangular `eye` violates the
invariant (see the counterexample), and so does `convolve` with a negative
valid-mode size, where numpy's inferred-dimension reshape lets `apply`
return a length-1 value although `shape[0] = -1` (final conjunct). -/
theorem length_invariant_amended :
    (∀ (si so : List ℤ) mv rmv (x y : List ℚ), 0 ≤ so.prod →
      apply (ndoperator si so mv rmv) x = .ok y →
        (y.length : ℤ) = (ndoperator si so mv rmv).shape.1) ∧
    (∀ (si so : List ℤ) mv g (y v : List ℚ), 0 ≤ si.prod →
      applyAdjoint (ndoperator si so mv (some g)) y = .ok v →
        (v.length : ℤ) = (ndoperator si so mv (some g)).shape.2) ∧
    (∀ (s : ℤ × ℤ) (A : LinearOperator) (x y : List ℚ),
      identity s = .ok A → (x.length : ℤ) = A.shape.2 → apply A x = .ok y →
        (y.length : ℤ) = A.shape.1) ∧
    (∀ (d : List ℚ) (A : LinearOperator) (x y : List ℚ),
      diag d none = .ok A → (x.length : ℤ) = A.shape.2 → apply A x = .ok y →
        (y.length : ℤ) = A.shape.1) ∧
    (((convolve 2 [1, 1] "valid").map (fun A => A.shape.1) = .ok (-1)) ∧
      ((convolve 2 [1, 1] "valid").map (fun A => apply A [1, 2]) = .ok (.ok [3]))) := by
  refine ⟨?_, ?_, ?_, ?_, ?_, ?_⟩
  · intro si so mv rmv x y hso hok
    simp only [apply, ndoperator, bind, Except.bind] at hok
    cases h1 : reshape x si.prod with
    | error e => rw [h1] at hok; exact absurd hok (by simp)
    | ok xr =>
      rw [h1] at hok
      dsimp only at hok
      cases h2 : mv xr with
      | error e => rw [h2] at hok; dsimp only at hok; exact absurd hok (by simp)
      | ok r =>
        rw [h2] at hok
        dsimp only at hok
        exact reshape_ok_length r y so.prod hso hok
  · intro si so mv g y v hsi hok
    simp only [applyAdjoint, ndoperator, Option.map, bind, Except.bind] at hok
    cases h1 : reshape y so.prod with
    | error e => rw [h1] at hok; exact absurd hok (by simp)
    | ok yr =>
      rw [h1] at hok
      dsimp only at hok
      cases h2 : g yr with
      | error e => rw [h2] at hok; dsimp only at hok; exact absurd hok (by simp)
      | ok r =>
        rw [h2] at hok
        dsimp only at hok
        exact reshape_ok_length r v si.prod hsi hok
  · intro s A x y hA hx hok
    unfold identity at hA
    split at hA
    · exact absurd hA (by simp)
    · next hsq =>
      injection hA with hA
      rw [← hA] at hx hok ⊢
      simp only [apply] at hok
      injection hok with hy
      rw [← hy, hx]
      simp only [not_not] at hsq
      exact hsq.symm
  · intro d A x y hA hx hok
    unfold diag at hA
    dsimp only [Option.getD] at hA
    split at hA
    · exact absurd hA (by simp)
    · injection hA with hA
      rw [← hA] at hx hok ⊢
      simp only [apply] at hok
      have hxd : x.length = d.length := by
        simp only at hx
        exact_mod_cast hx
      unfold np_mul at hok
      rw [if_pos hxd.symm] at hok
      injection hok with hy
      rw [← hy]
      simp [hxd]
  · rfl
  · have h1 : convolve 2 [1, 1] "valid" = .ok (ndoperator [2] [-1]
        (fun x => .ok (convArr "valid" x [1, 1]))
        (some (fun y => .ok (convArr (convolve_rmode "valid") y [1, 1])))) := rfl
    rw [h1]
    simp only [Except.map]
    norm_num [apply, ndoperator, reshape, convArr, conv_valid, conv_full,
      List.range_succ, bind, Except.bind]
    decide

/-- Witness for the amended length invariant, instantiating each conjunct at a
concrete operator and input. -/
theorem length_invariant_amended_witness :
    ((([5, 7] : List ℚ).length : ℤ) = (ndoperator [2] [2] (fun x => .ok x) none).shape.1) ∧
    ((([5, 7] : List ℚ).length : ℤ) =
      (ndoperator [2] [2] (fun x => .ok x) (some (fun x => .ok x))).shape.2) ∧
    ((([5, 7] : List ℚ).length : ℤ) =
      (LinearOperator.mk (2, 2) (fun x => .ok x) (some (fun x => .ok x))).shape.1) ∧
    ((([2, 6] : List ℚ).length : ℤ) =
      (LinearOperator.mk (2, 2) (np_mul [2, 3]) (some (np_mul [2, 3]))).shape.1) := by
  refine ⟨?_, ?_, ?_, ?_⟩
  · exact length_invariant_amended.1 [2] [2] (fun x => .ok x) none [5, 7] [5, 7]
      (by decide) (by rfl)
  · exact length_invariant_amended.2.1 [2] [2] (fun x => .ok x) (fun x => .ok x) [5, 7] [5, 7]
      (by decide) (by rfl)
  · exact length_invariant_amended.2.2.1 (2, 2)
      (LinearOperator.mk (2, 2) (fun x => .ok x) (some (fun x => .ok x))) [5, 7] [5, 7]
      (by rfl) (by rfl) (by rfl)
  · exact length_invariant_amended.2.2.2.1 [2, 3]
      (LinearOperator.mk (2, 2) (np_mul [2, 3]) (some (np_mul [2, 3]))) [1, 2] [2, 6]
      (by rfl) (by rfl) (by norm_num [apply, np_mul])

/-- Claim C4, amended: factory-call-time validation covers only the explicit
configuration checks (`diag` and `identity` reject non-square shapes; `diag`
with no explicit shape always constructs).  `binning` validates nothing: it
floors `shapeout[axis] /= factor` for every input, and when
`shapein[axis]` is not a multiple of `factor` the error surfaces only at
`apply` time, as an `IndexError` raised inside the repository function
`bin`. -/
theorem factory_validation_amended :
    (∀ (d : List ℚ) (r c : ℤ), (diag d (some (r, c))).isOk = true ↔ r = c) ∧
    (∀ d : List ℚ, (diag d none).isOk = true) ∧
    (∀ s : ℤ × ℤ, (identity s).isOk = true ↔ s.1 = s.2) ∧
    (∀ n f : ℕ, (binning n f).shape = (((n / f : ℕ) : ℤ), (n : ℤ))) ∧
    (∀ n f : ℕ, 0 < f → ¬ f ∣ n →
      apply (binning n f) (List.replicate n 1) =
        .error "IndexError: index out of bounds") := by
  refine ⟨?_, ?_, ?_, ?_, ?_⟩
  · intro d r c
    unfold diag
    dsimp only [Option.getD]
    by_cases h : r = c
    · simp [h, Except.isOk, Except.toBool]
    · simp [h, Except.isOk, Except.toBool]
  · intro d
    simp [diag, Except.isOk, Except.toBool]
  · intro s
    unfold identity
    by_cases h : s.1 = s.2
    · simp [h, Except.isOk, Except.toBool]
    · simp [h, Except.isOk, Except.toBool]
  · intro n f
    simp [binning, ndoperator]
  · intro n f hf hdvd
    have hbin : bin (List.replicate n (1 : ℚ)) f = .error "IndexError: index out of bounds" := by
      apply bin_indexerror _ _ hf
      rw [List.length_replicate]
      exact hdvd
    simp [apply, binning, ndoperator, bind, Except.bind, reshape, hbin]

/-- Witness for the amended validation claim: the deferred `binning` failure
at the concrete instance `shapein = (9,)`, `factor = 2`. -/
theorem factory_validation_amended_witness :
    apply (binning 9 2) (List.replicate 9 1) = .error "IndexError: index out of bounds" :=
  factory_validation_amended.2.2.2.2 9 2 (by decide) (by decide)

/-- Claim C5: for `decimate(mask)`, for every `x` of the domain shape and `y`
of the codomain size, `dot(apply(x), y) = dot(x, apply_adjoint(y))`: the
forward selection and the zero-filled scatter form a true adjoint pair. -/
theorem decimate_adjoint_pair_law (m : List Bool) (x y : List ℚ)
    (hx : x.length = m.length) (hy : y.length = countFalse m) :
    ∃ a b, apply (decimate m) x = .ok a ∧ applyAdjoint (decimate m) y = .ok b ∧
      dot a y = dot x b := by
  exact ⟨select m x, scatter m y, decimate_apply m x hx, decimate_applyAdjoint m y hy,
    dot_select_scatter m x y hx hy⟩

/-- Witness for the decimate adjoint-pair law at a concrete mask and inputs. -/
theorem decimate_adjoint_pair_law_witness :
    ∃ a b, apply (decimate [true, false, false]) [1, 2, 3] = .ok a ∧
      applyAdjoint (decimate [true, false, false]) [10, 20] = .ok b ∧
      dot a [10, 20] = dot [1, 2, 3] b :=
  decimate_adjoint_pair_law [true, false, false] [1, 2, 3] [10, 20] rfl rfl

/-- Claim C10: for every mask `m` and every `y` of the codomain size,
`decimate(m).apply(decimate(m).apply_adjoint(y)) = y`: forward selection is a
left inverse of the scatter adjoint on the codomain. -/
theorem decimate_apply_left_inverse (m : List Bool) (y : List ℚ)
    (hy : y.length = countFalse m) :
    ∃ z, applyAdjoint (decimate m) y = .ok z ∧ apply (decimate m) z = .ok y := by
  refine ⟨scatter m y, decimate_applyAdjoint m y hy, ?_⟩
  rw [decimate_apply m (scatter m y) (length_scatter m y), select_scatter m y hy]

/-- Witness for the decimate left-inverse law at a concrete mask and input. -/
theorem decimate_apply_left_inverse_witness :
    ∃ z, applyAdjoint (decimate [false, true, false]) [10, 20] = .ok z ∧
      apply (decimate [false, true, false]) z = .ok [10, 20] :=
  decimate_apply_left_inverse [false, true, false] [10, 20] rfl

/-- Claim C7: for every boolean mask `m` and every `x` of the same shape,
`mask(m).apply(x)` returns an array that is `0` at the positions where `m` is
true and equals `x` at every position where `m` is false. -/
theorem mask_zeroes_masked_positions (m : List Bool) (x : List ℚ) (hx : x.length = m.length) :
    ∃ y, apply (mask m) x = .ok y ∧ y.length = m.length ∧
      ∀ i, i < m.length → y.getD i 0 = if m.getD i false then 0 else x.getD i 0 := by
  refine ⟨mask_matvec m x, ?_, mask_matvec_length m x hx, fun i hi => mask_matvec_getD m x i hx hi⟩
  simp only [apply, mask, ndoperator, bind, Except.bind]
  rw [reshape_eq_ok x _ (by simp [hx])]
  dsimp only
  rw [reshape_eq_ok _ _ (by simp [mask_matvec_length m x hx])]

/-- Witness for the mask zeroing property at a concrete mask and input. -/
theorem mask_zeroes_masked_positions_witness :
    ∃ y, apply (mask [true, false]) [3, 5] = .ok y ∧ y.length = ([true, false] : List Bool).length ∧
      ∀ i, i < ([true, false] : List Bool).length →
        y.getD i 0 = if ([true, false] : List Bool).getD i false then 0
          else ([3, 5] : List ℚ).getD i 0 :=
  mask_zeroes_masked_positions [true, false] [3, 5] rfl

/-- Claim C9: `mask(m).apply(x)` does not mutate its input: in the explicit
heap model the result lives in a freshly allocated buffer (its reference
differs from the input reference), the input buffer is unchanged after the
call, and the fresh buffer holds the masked copy. -/
theorem mask_apply_no_mutation (m : List Bool) (h : Heap) (xr : ℕ)
    (hx : xr < h.bufs.length) :
    (mask_matvec_effectful m h xr).2 ≠ xr ∧
    (mask_matvec_effectful m h xr).1.bufs.getD xr [] = h.bufs.getD xr [] ∧
    (mask_matvec_effectful m h xr).1.bufs.getD (mask_matvec_effectful m h xr).2 [] =
      mask_matvec m (h.bufs.getD xr []) := by
  have key : (mask_matvec_effectful m h xr).1.bufs
      = h.bufs ++ [mask_matvec m (h.bufs.getD xr [])] := by
    show (h.bufs ++ [h.bufs.getD xr []]).set h.bufs.length
        (mask_matvec m ((h.bufs ++ [h.bufs.getD xr []]).getD h.bufs.length [])) = _
    rw [getD_append_length, set_append_singleton]
  have hr : (mask_matvec_effectful m h xr).2 = h.bufs.length := rfl
  refine ⟨by rw [hr]; exact ne_of_gt hx, ?_, ?_⟩
  · rw [key]
    exact List.getD_append _ _ _ _ hx
  · rw [key, hr]
    exact getD_append_length _ _ _

/-- Witness for the no-mutation property on a concrete one-buffer heap. -/
theorem mask_apply_no_mutation_witness :
    (mask_matvec_effectful [true, false] ⟨[[3, 5]]⟩ 0).2 ≠ 0 ∧
    (mask_matvec_effectful [true, false] ⟨[[3, 5]]⟩ 0).1.bufs.getD 0 [] =
      (⟨[[3, 5]]⟩ : Heap).bufs.getD 0 [] ∧
    (mask_matvec_effectful [true, false] ⟨[[3, 5]]⟩ 0).1.bufs.getD
        (mask_matvec_effectful [true, false] ⟨[[3, 5]]⟩ 0).2 [] =
      mask_matvec [true, false] ((⟨[[3, 5]]⟩ : Heap).bufs.getD 0 []) :=
  mask_apply_no_mutation [true, false] ⟨[[3, 5]]⟩ 0 (by decide)

end Lo
